import Mathlib

/-!
Verification of the asynchronous file cache of `src/app.py`
(`CachedFile` and `OptimizedFileCache`).

Python dictionaries (`self.cache`, `self.processing_queue`, `self.access_times`)
are modelled as insertion-ordered association lists with the usual dict
operations (lookup, set-or-append, pop).  Bytes are `List Nat`, wall-clock
times are `Nat`, and the running memory total is `Int` (a Python int that is
both incremented and decremented).  The external primitives used by the cache
(hashlib.blake2b, PIL image decoding, PyMuPDF/fitz extraction) are abstracted
as an `Externals` record of deterministic functions; fallible library calls
return `Except` to model raised exceptions.  Thread-pool futures are modelled
explicitly: a submitted job is `Future.running`, and the worker finishing is
the `completeJob` transition, which runs the body of `process_file_async` on
the shared state and stores the result in the future.
-/

namespace TTRG

/-! ## Python dict as an insertion-ordered association list -/

/-- `d[k]` / `k in d` / `d.get(k)`: first (unique) binding of `k`. -/
def dictGet {α : Type} (k : String) : List (String × α) → Option α
  | [] => none
  | p :: rest => if p.1 = k then some p.2 else dictGet k rest

/-- `d[k] = v`: replace the binding of `k` in place, or append it. -/
def dictSet {α : Type} (k : String) (v : α) : List (String × α) → List (String × α)
  | [] => [(k, v)]
  | p :: rest => if p.1 = k then (k, v) :: rest else p :: dictSet k v rest

/-- `d.pop(k)` (ignoring the returned value): drop the binding of `k`. -/
def dictPop {α : Type} (k : String) : List (String × α) → List (String × α)
  | [] => []
  | p :: rest => if p.1 = k then rest else p :: dictPop k rest

/-! ## Data model: processed payloads and `CachedFile` -/

/-- The value stored in `CachedFile.processed_data`: a PIL bitmap (for images,
recording its width and height), the dict returned by `extract_pdf_text`
(for PDFs; `error := false` models the success dict that has no "error" key),
or the dict built in the `except` branch of `process_file_async`. -/
inductive ProcessedData where
  | image (width height : Nat)
  | pdfDict (text_content : String) (error : Bool)
  | errorDict (msg : String)
  deriving DecidableEq, Repr

/-- `d.get("text_content")` on a processed-data value (only ever reached for
dict-shaped data in the source). -/
def ProcessedData.getTextContent : ProcessedData → Option String
  | .pdfDict t _ => some t
  | _ => none

/-- `processed_data.width * processed_data.height * 3` (only ever reached for
bitmap data in the source). -/
def ProcessedData.imageCost : ProcessedData → Nat
  | .image w h => w * h * 3
  | _ => 0

/-- What `get_for_ai_model` hands to the model: either the raw processed
object (image branch) or the extracted text (pdf branch). -/
inductive ModelPayload where
  | obj (pd : ProcessedData)
  | text (s : String)
  deriving DecidableEq, Repr

/-- class `CachedFile` of `src/app.py`. -/
structure CachedFile where
  file_id : String
  filename : String
  content_type : String
  processed_data : Option ProcessedData
  memory_usage : Nat
  file_hash : String
  is_placeholder : Bool
  deriving DecidableEq, Repr

/-- `CachedFile.placeholder`: `cls(file_id, filename, "processing", None, 0, "")`
with `is_placeholder = True`. -/
def CachedFile.placeholder (file_id filename : String) : CachedFile :=
  { file_id := file_id, filename := filename, content_type := "processing",
    processed_data := none, memory_usage := 0, file_hash := "",
    is_placeholder := true }

/-- `CachedFile.is_ready`: `not self.is_placeholder and self.processed_data is not None`. -/
def CachedFile.is_ready (f : CachedFile) : Bool :=
  !f.is_placeholder && f.processed_data.isSome

/-- `CachedFile.get_for_ai_model`. -/
def CachedFile.get_for_ai_model (f : CachedFile) : Option ModelPayload :=
  if f.is_ready = false then none
  else if f.content_type = "image" then f.processed_data.map ModelPayload.obj
  else if f.content_type = "pdf" then
    (f.processed_data.bind ProcessedData.getTextContent).map ModelPayload.text
  else none

/-! ## External primitives and file objects -/

/-- The streamlit `UploadedFile` interface the cache reads:
`.name`, `.type` (mime type), and `.getvalue()` (the raw bytes, as `data`). -/
structure FileObj where
  name : String
  type : String
  data : List Nat
  deriving DecidableEq, Repr

/-- External library primitives, abstracted as deterministic functions:
`blake2b8` is `hashlib.blake2b(·, digest_size=8).hexdigest()`;
`decodeImage` is PIL `Image.open` + `convert("RGB")` + `thumbnail((1024,1024))`,
yielding the (width, height) of the decoded bitmap or raising;
`fitzExtract` is `fitz.open(stream=·)` + per-page `get_text()`, yielding the
list of all page texts or raising. -/
structure Externals where
  blake2b8 : List Nat → String
  decodeImage : List Nat → Except String (Nat × Nat)
  fitzExtract : List Nat → Except String (List String)

/-! ## `OptimizedFileCache` state and operations -/

/-- A `concurrent.futures.Future` stored in `processing_queue`: either the
submitted-but-unfinished job (holding the file object the worker will read)
or a finished job holding its result. -/
inductive Future where
  | running (file_obj : FileObj)
  | done (result : CachedFile)
  deriving DecidableEq, Repr

/-- The mutable state of one `OptimizedFileCache` instance. -/
structure CacheState where
  max_memory_bytes : Nat
  cache : List (String × CachedFile)
  processing_queue : List (String × Future)
  access_times : List (String × Nat)
  current_memory_usage : Int
  deriving DecidableEq, Repr

/-- `OptimizedFileCache.__init__(max_memory_mb, ...)`. -/
def cacheInit (max_memory_mb : Nat) : CacheState :=
  { max_memory_bytes := max_memory_mb * 1024 * 1024, cache := [],
    processing_queue := [], access_times := [], current_memory_usage := 0 }

/-- `get_file_hash`: `hashlib.blake2b(file_data[:8192], digest_size=8).hexdigest()`. -/
def get_file_hash (ext : Externals) (file_data : List Nat) : String :=
  ext.blake2b8 (file_data.take 8192)

/-- `find_by_hash`: `next((f for f in self.cache.values() if f.file_hash == file_hash), None)`. -/
def find_by_hash (s : CacheState) (file_hash : String) : Option CachedFile :=
  (s.cache.map Prod.snd).find? (fun f => f.file_hash == file_hash)

/-- `extract_pdf_text(pdf_data, max_pages)`: joins the first
`min(max_pages, len(doc))` page texts with blank lines, or catches any
exception and returns the visible error dict. -/
def extract_pdf_text (ext : Externals) (pdf_data : List Nat) (max_pages : Nat) :
    ProcessedData :=
  match ext.fitzExtract pdf_data with
  | Except.ok pages =>
      ProcessedData.pdfDict (String.intercalate "\n\n" (pages.take max_pages)) false
  | Except.error e =>
      ProcessedData.pdfDict ("[Errore estrazione PDF: " ++ e ++ "]") true

/-- `optimize_image`: PIL open/convert/thumbnail; may raise. -/
def optimize_image (ext : Externals) (image_data : List Nat) :
    Except String ProcessedData :=
  (ext.decodeImage image_data).map (fun wh => ProcessedData.image wh.1 wh.2)

/-- One step of the `for file_id, _ in sorted_files:` loop of
`evict_lru_if_needed`, over an already-sorted snapshot of `access_times`. -/
def evictLoop (needed : Nat) : List (String × Nat) → CacheState → CacheState
  | [], s => s
  | p :: rest, s =>
    if s.current_memory_usage + (needed : Int) ≤ (s.max_memory_bytes : Int) then s
    else
      match dictGet p.1 s.cache with
      | some cached_file =>
          evictLoop needed rest
            { s with cache := dictPop p.1 s.cache,
                     access_times := dictPop p.1 s.access_times,
                     current_memory_usage :=
                       s.current_memory_usage - (cached_file.memory_usage : Int) }
      | none => evictLoop needed rest s

/-- Stable insertion into a list sorted by ascending timestamp (the element
being inserted comes from earlier in the original list, so it goes before
later elements with an equal timestamp — Python's `sorted` is stable). -/
def insertByTime (p : String × Nat) : List (String × Nat) → List (String × Nat)
  | [] => [p]
  | q :: rest => if p.2 ≤ q.2 then p :: q :: rest else q :: insertByTime p rest

/-- `sorted(self.access_times.items(), key=lambda x: x[1])`. -/
def sortByTime : List (String × Nat) → List (String × Nat)
  | [] => []
  | p :: rest => insertByTime p (sortByTime rest)

/-- `evict_lru_if_needed(needed_bytes)`. -/
def evict_lru_if_needed (s : CacheState) (needed_bytes : Nat) : CacheState :=
  if s.current_memory_usage + (needed_bytes : Int) ≤ (s.max_memory_bytes : Int) then s
  else evictLoop needed_bytes (sortByTime s.access_times) s

/-- The tail of `process_file_async` after successful processing: build the
`CachedFile`, call `evict_lru_if_needed(memory_usage)`, and publish the entry
under `self.lock` (insert into `cache` and `access_times`, add the cost). -/
def publishEntry (s : CacheState) (now : Nat) (file_id : String)
    (filename content_type : String) (processed_data : ProcessedData)
    (memory_usage : Nat) (file_hash : String) : CacheState × CachedFile :=
  let cached_file : CachedFile :=
    { file_id := file_id, filename := filename, content_type := content_type,
      processed_data := some processed_data, memory_usage := memory_usage,
      file_hash := file_hash, is_placeholder := false }
  let s1 := evict_lru_if_needed s memory_usage
  ({ s1 with cache := dictSet file_id cached_file s1.cache,
             access_times := dictSet file_id now s1.access_times,
             current_memory_usage := s1.current_memory_usage + (memory_usage : Int) },
   cached_file)

/-- The error `CachedFile` built by the `except` branch of `process_file_async`:
`CachedFile(file_id, getattr(file_obj, 'name', 'unknown'), "error", {"error": str(e)}, 0, "")`. -/
def errorFile (file_id : String) (file_obj : FileObj) (e : String) : CachedFile :=
  { file_id := file_id, filename := file_obj.name, content_type := "error",
    processed_data := some (ProcessedData.errorDict e), memory_usage := 0,
    file_hash := "", is_placeholder := false }

/-- The body of `process_file_async(file_id, file_obj)`, run by a pool worker
on the shared state; returns the new state and the future's result.
The `except` branch catches the only raising call (image decoding) and
returns the error `CachedFile` without publishing anything. -/
def process_file_async (ext : Externals) (s : CacheState) (now : Nat)
    (file_id : String) (file_obj : FileObj) : CacheState × CachedFile :=
  let file_data := file_obj.data
  let file_hash := get_file_hash ext file_data
  match find_by_hash s file_hash with
  | some existing => (s, existing)
  | none =>
    let content_type := if file_obj.type = "application/pdf" then "pdf" else "image"
    let processed : Except String ProcessedData :=
      if content_type = "pdf" then Except.ok (extract_pdf_text ext file_data 10)
      else optimize_image ext file_data
    match processed with
    | Except.error e => (s, errorFile file_id file_obj e)
    | Except.ok processed_data =>
        let memory_usage : Nat :=
          if content_type = "pdf" then
            (processed_data.getTextContent.getD "").utf8ByteSize
          else processed_data.imageCost
        publishEntry s now file_id file_obj.name content_type processed_data
          memory_usage file_hash

/-- A pool worker finishing the submitted job for `file_id`: it runs the body
of `process_file_async` on the shared state and the future becomes done,
holding the returned `CachedFile`.  (The body itself never touches
`processing_queue`; the future mechanism stores the result.) -/
def completeJob (ext : Externals) (s : CacheState) (now : Nat) (file_id : String) :
    CacheState :=
  match dictGet file_id s.processing_queue with
  | some (Future.running file_obj) =>
      let r := process_file_async ext s now file_id file_obj
      { r.1 with processing_queue :=
          dictSet file_id (Future.done r.2) r.1.processing_queue }
  | _ => s

/-- `get_or_create(file_id, file_obj)`. -/
def get_or_create (s : CacheState) (now : Nat) (file_id : String)
    (file_obj : FileObj) : CacheState × CachedFile :=
  match dictGet file_id s.cache with
  | some cf => ({ s with access_times := dictSet file_id now s.access_times }, cf)
  | none =>
    match dictGet file_id s.processing_queue with
    | some (Future.done result) =>
        ({ s with processing_queue := dictPop file_id s.processing_queue }, result)
    | some (Future.running _) => (s, CachedFile.placeholder file_id file_obj.name)
    | none =>
        ({ s with processing_queue :=
             dictSet file_id (Future.running file_obj) s.processing_queue },
         CachedFile.placeholder file_id file_obj.name)

/-- `remove_file(file_id)`. -/
def remove_file (s : CacheState) (file_id : String) : CacheState :=
  match dictGet file_id s.cache with
  | some cached_file =>
      { s with cache := dictPop file_id s.cache,
               access_times := dictPop file_id s.access_times,
               current_memory_usage :=
                 s.current_memory_usage - (cached_file.memory_usage : Int) }
  | none => s

/-- `clear()`: empties the maps and resets the total; queued futures are
cancelled (a job already running is modelled by applying
`process_file_async` to the post-`clear` state). -/
def clear (s : CacheState) : CacheState :=
  { s with cache := [], access_times := [], processing_queue := [],
           current_memory_usage := 0 }

/-- The sum of `memory_usage` over the entries of the cache map. -/
def cacheSum (l : List (String × CachedFile)) : Int :=
  (l.map (fun p => (p.2.memory_usage : Int))).sum

/-- States reachable from a freshly constructed cache by the public
operations, with workers finishing submitted jobs at arbitrary points
(each operation runs atomically under `self.lock`). -/
inductive Reachable (ext : Externals) : CacheState → Prop where
  | init : ∀ max_memory_mb : Nat, Reachable ext (cacheInit max_memory_mb)
  | step_get : ∀ s now id obj, Reachable ext s →
      Reachable ext (get_or_create s now id obj).1
  | step_complete : ∀ s now id, Reachable ext s →
      Reachable ext (completeJob ext s now id)
  | step_remove : ∀ s id, Reachable ext s → Reachable ext (remove_file s id)
  | step_clear : ∀ s, Reachable ext s → Reachable ext (clear s)

/-! ## Lemmas about the dict operations -/

theorem dictGet_nil {α : Type} (k : String) : dictGet (α := α) k [] = none := rfl

theorem dictGet_dictSet_self {α : Type} (k : String) (v : α)
    (l : List (String × α)) : dictGet k (dictSet k v l) = some v := by
  induction l with
  | nil => simp [dictGet, dictSet]
  | cons p rest ih =>
    by_cases h : p.1 = k
    · simp [dictSet, h, dictGet]
    · simp [dictSet, h, dictGet, ih]

theorem dictGet_dictSet_ne {α : Type} (k a : String) (v : α)
    (l : List (String × α)) (h : a ≠ k) :
    dictGet a (dictSet k v l) = dictGet a l := by
  induction l with
  | nil => simp [dictGet, dictSet, Ne.symm h]
  | cons p rest ih =>
    by_cases hp : p.1 = k
    · subst hp
      simp [dictSet, dictGet, Ne.symm h]
    · by_cases ha : p.1 = a
      · simp [dictSet, hp, dictGet, ha, h]
      · simp [dictSet, hp, dictGet, ha, ih]

theorem dictGet_dictPop_ne {α : Type} (k a : String)
    (l : List (String × α)) (h : a ≠ k) :
    dictGet a (dictPop k l) = dictGet a l := by
  induction l with
  | nil => simp [dictPop]
  | cons p rest ih =>
    by_cases hp : p.1 = k
    · subst hp
      simp [dictPop, dictGet, Ne.symm h]
    · by_cases ha : p.1 = a
      · simp [dictPop, hp, dictGet, ha, h]
      · simp [dictPop, hp, dictGet, ha, ih]

theorem dictGet_eq_none_iff {α : Type} (k : String) (l : List (String × α)) :
    dictGet k l = none ↔ k ∉ l.map Prod.fst := by
  induction l with
  | nil => simp [dictGet]
  | cons p rest ih =>
    by_cases hp : p.1 = k
    · subst hp
      simp [dictGet]
    · simp only [dictGet, hp, ite_false, ih, List.map_cons, List.mem_cons]
      constructor
      · intro hk hmem
        rcases hmem with hh | hh
        · exact hp hh.symm
        · exact hk hh
      · intro hk hmem
        exact hk (Or.inr hmem)

theorem dictPop_of_none {α : Type} (k : String) (l : List (String × α))
    (h : dictGet k l = none) : dictPop k l = l := by
  induction l with
  | nil => rfl
  | cons p rest ih =>
    by_cases hp : p.1 = k
    · simp [dictGet, hp] at h
    · simp [dictGet, hp] at h
      simp [dictPop, hp, ih h]

theorem keys_dictPop_sublist {α : Type} (k : String) (l : List (String × α)) :
    ((dictPop k l).map Prod.fst).Sublist (l.map Prod.fst) := by
  induction l with
  | nil => simp [dictPop]
  | cons p rest ih =>
    by_cases hp : p.1 = k
    · simp only [dictPop, hp, if_pos]
      exact (List.sublist_cons_self _ _)
    · simp only [dictPop, hp, if_neg, List.map_cons, ite_false]
      exact ih.cons₂ _

theorem mem_of_mem_keys_dictPop {α : Type} (k a : String) (l : List (String × α))
    (h : a ∈ (dictPop k l).map Prod.fst) : a ∈ l.map Prod.fst :=
  (keys_dictPop_sublist k l).mem h

theorem dictGet_dictPop_self {α : Type} (k : String) (l : List (String × α))
    (h : (l.map Prod.fst).Nodup) : dictGet k (dictPop k l) = none := by
  induction l with
  | nil => rfl
  | cons p rest ih =>
    simp only [List.map_cons, List.nodup_cons] at h
    by_cases hp : p.1 = k
    · subst hp
      simp only [dictPop, if_pos]
      exact (dictGet_eq_none_iff _ _).2 h.1
    · simp only [dictPop, hp, ite_false, dictGet, if_neg hp]
      exact ih h.2

theorem dictGet_none_dictPop {α : Type} (k a : String) (l : List (String × α))
    (h : dictGet a l = none) : dictGet a (dictPop k l) = none := by
  rw [dictGet_eq_none_iff] at h ⊢
  exact fun hm => h (mem_of_mem_keys_dictPop k a l hm)

theorem nodup_keys_dictPop {α : Type} (k : String) (l : List (String × α))
    (h : (l.map Prod.fst).Nodup) : ((dictPop k l).map Prod.fst).Nodup :=
  (keys_dictPop_sublist k l).nodup h

theorem dictSet_of_none {α : Type} (k : String) (v : α) (l : List (String × α))
    (h : dictGet k l = none) : dictSet k v l = l ++ [(k, v)] := by
  induction l with
  | nil => rfl
  | cons p rest ih =>
    by_cases hp : p.1 = k
    · simp [dictGet, hp] at h
    · simp [dictGet, hp] at h
      simp [dictSet, hp, ih h]

theorem mem_keys_dictSet {α : Type} (k a : String) (v : α) (l : List (String × α))
    (h : a ∈ (dictSet k v l).map Prod.fst) : a = k ∨ a ∈ l.map Prod.fst := by
  induction l with
  | nil => simpa [dictSet] using h
  | cons p rest ih =>
    by_cases hp : p.1 = k
    · simp only [dictSet, hp, if_pos, List.map_cons, List.mem_cons] at h
      rcases h with h | h
      · exact Or.inl h
      · exact Or.inr (by simp [h])
    · simp only [dictSet, hp, ite_false, List.map_cons, List.mem_cons] at h
      rcases h with h | h
      · exact Or.inr (by simp [h])
      · rcases ih h with h | h
        · exact Or.inl h
        · exact Or.inr (by simp [h])

theorem nodup_keys_dictSet {α : Type} (k : String) (v : α) (l : List (String × α))
    (h : (l.map Prod.fst).Nodup) : ((dictSet k v l).map Prod.fst).Nodup := by
  induction l with
  | nil => simp [dictSet]
  | cons p rest ih =>
    simp only [List.map_cons, List.nodup_cons] at h
    by_cases hp : p.1 = k
    · subst hp
      simp only [dictSet, if_pos, List.map_cons, List.nodup_cons]
      exact ⟨h.1, h.2⟩
    · simp only [dictSet, hp, ite_false, List.map_cons, List.nodup_cons]
      refine ⟨fun hm => ?_, ih h.2⟩
      rcases mem_keys_dictSet k p.1 v rest hm with hh | hh
      · exact hp hh
      · exact h.1 hh

theorem dict_eq_nil_of_forall_none {α : Type} (l : List (String × α))
    (h : ∀ k, dictGet k l = none) : l = [] := by
  cases l with
  | nil => rfl
  | cons p rest =>
    have := h p.1
    simp [dictGet] at this

/-! ## Lemmas about `cacheSum` -/

theorem cacheSum_nil : cacheSum [] = 0 := rfl

theorem cacheSum_append (l₁ l₂ : List (String × CachedFile)) :
    cacheSum (l₁ ++ l₂) = cacheSum l₁ + cacheSum l₂ := by
  simp [cacheSum]

theorem cacheSum_dictSet_none (k : String) (v : CachedFile)
    (l : List (String × CachedFile)) (h : dictGet k l = none) :
    cacheSum (dictSet k v l) = cacheSum l + (v.memory_usage : Int) := by
  rw [dictSet_of_none k v l h, cacheSum_append]
  simp [cacheSum]

theorem cacheSum_dictPop (k : String) (cf : CachedFile)
    (l : List (String × CachedFile)) (h : dictGet k l = some cf) :
    cacheSum (dictPop k l) = cacheSum l - (cf.memory_usage : Int) := by
  induction l with
  | nil => simp [dictGet] at h
  | cons p rest ih =>
    by_cases hp : p.1 = k
    · subst hp
      simp [dictGet] at h
      subst h
      simp [dictPop, cacheSum]
    · simp only [dictGet, hp, ite_false] at h
      simp only [dictPop, hp, ite_false]
      have := ih h
      simp only [cacheSum, List.map_cons, List.sum_cons] at this ⊢
      omega

theorem cacheSum_nonneg (l : List (String × CachedFile)) : 0 ≤ cacheSum l := by
  induction l with
  | nil => simp [cacheSum]
  | cons p rest ih =>
    simp only [cacheSum, List.map_cons, List.sum_cons] at ih ⊢
    positivity

/-! ## Lemmas about the sorted eviction snapshot -/

theorem mem_insertByTime (b p : String × Nat) (l : List (String × Nat)) :
    b ∈ insertByTime p l ↔ b = p ∨ b ∈ l := by
  induction l with
  | nil => simp [insertByTime]
  | cons q rest ih =>
    rw [insertByTime]
    split
    · simp
    · simp only [List.mem_cons, ih]
      tauto

theorem mem_sortByTime (b : String × Nat) (l : List (String × Nat)) :
    b ∈ sortByTime l ↔ b ∈ l := by
  induction l with
  | nil => simp [sortByTime]
  | cons p rest ih =>
    rw [sortByTime, mem_insertByTime]
    simp [ih]

theorem mem_keys_sortByTime (k : String) (l : List (String × Nat))
    (h : k ∈ l.map Prod.fst) : k ∈ (sortByTime l).map Prod.fst := by
  rcases List.mem_map.1 h with ⟨p, hp, hk⟩
  exact List.mem_map.2 ⟨p, (mem_sortByTime p l).2 hp, hk⟩

theorem sorted_insertByTime (p : String × Nat) (l : List (String × Nat))
    (h : List.Sorted (fun a b : String × Nat => a.2 ≤ b.2) l) :
    List.Sorted (fun a b : String × Nat => a.2 ≤ b.2) (insertByTime p l) := by
  induction l with
  | nil => simp [insertByTime]
  | cons q rest ih =>
    rw [List.sorted_cons] at h
    rw [insertByTime]
    split
    · rename_i hle
      rw [List.sorted_cons]
      refine ⟨fun b hb => ?_, List.sorted_cons.2 h⟩
      rcases List.mem_cons.1 hb with hb | hb
      · subst hb; exact hle
      · exact Nat.le_trans hle (h.1 b hb)
    · rename_i hgt
      rw [List.sorted_cons]
      refine ⟨fun b hb => ?_, ih h.2⟩
      rcases (mem_insertByTime b p rest).1 hb with hb | hb
      · subst hb
        exact Nat.le_of_lt (Nat.lt_of_not_le hgt)
      · exact h.1 b hb

theorem sorted_sortByTime (l : List (String × Nat)) :
    List.Sorted (fun a b : String × Nat => a.2 ≤ b.2) (sortByTime l) := by
  induction l with
  | nil => simp [sortByTime]
  | cons p rest ih => exact sorted_insertByTime p (sortByTime rest) ih

/-! ## The store invariant -/

/-- Bookkeeping invariant over the three per-entry tables: the running total
matches the cache contents, keys are dict-unique, and every cached key has an
access time. -/
def BookInv (s : CacheState) : Prop :=
  s.current_memory_usage = cacheSum s.cache ∧
  (s.cache.map Prod.fst).Nodup ∧
  (s.access_times.map Prod.fst).Nodup ∧
  (∀ k, (dictGet k s.cache).isSome → (dictGet k s.access_times).isSome)

/-- The budget invariant: within budget, except for a lone entry that by
itself exceeds the whole budget. -/
def BudgetInv (s : CacheState) : Prop :=
  s.current_memory_usage ≤ (s.max_memory_bytes : Int) ∨
    ∃ k cf, s.cache = [(k, cf)] ∧
      (s.max_memory_bytes : Int) < (cf.memory_usage : Int)

/-- The full store invariant preserved by every operation. -/
def StoreInv (s : CacheState) : Prop :=
  BookInv s ∧
  (s.processing_queue.map Prod.fst).Nodup ∧
  (∀ k obj, dictGet k s.processing_queue = some (Future.running obj) →
      dictGet k s.cache = none) ∧
  BudgetInv s

theorem evictLoop_cons (needed : Nat) (p : String × Nat)
    (rest : List (String × Nat)) (s : CacheState) :
    evictLoop needed (p :: rest) s =
      if s.current_memory_usage + (needed : Int) ≤ (s.max_memory_bytes : Int) then s
      else
        match dictGet p.1 s.cache with
        | some cached_file =>
            evictLoop needed rest
              { s with cache := dictPop p.1 s.cache,
                       access_times := dictPop p.1 s.access_times,
                       current_memory_usage :=
                         s.current_memory_usage - (cached_file.memory_usage : Int) }
        | none => evictLoop needed rest s := rfl

/-- Everything `evictLoop` guarantees: fields it does not touch, preservation
of the bookkeeping invariant, monotone disappearance of keys, and on exit
either the candidate fits or every snapshot key has been evicted. -/
theorem evictLoop_spec (needed : Nat) (L : List (String × Nat)) :
    ∀ s : CacheState, BookInv s →
    BookInv (evictLoop needed L s) ∧
    (evictLoop needed L s).max_memory_bytes = s.max_memory_bytes ∧
    (evictLoop needed L s).processing_queue = s.processing_queue ∧
    (∀ k, dictGet k s.cache = none → dictGet k (evictLoop needed L s).cache = none) ∧
    ((evictLoop needed L s).current_memory_usage + (needed : Int) ≤
        ((evictLoop needed L s).max_memory_bytes : Int) ∨
      ∀ k, k ∈ L.map Prod.fst → dictGet k (evictLoop needed L s).cache = none) := by
  induction L with
  | nil =>
    intro s hb
    refine ⟨hb, rfl, rfl, fun k hk => hk, Or.inr ?_⟩
    intro k hk
    simp at hk
  | cons p rest ih =>
    intro s hb
    rw [evictLoop_cons]
    by_cases hle : s.current_memory_usage + (needed : Int) ≤ (s.max_memory_bytes : Int)
    · rw [if_pos hle]
      exact ⟨hb, rfl, rfl, fun k hk => hk, Or.inl hle⟩
    · rw [if_neg hle]
      obtain ⟨h1, h2, h3, h4⟩ := hb
      cases hc : dictGet p.1 s.cache with
      | none =>
        obtain ⟨m1, m2, m3, m4, m5⟩ := ih s ⟨h1, h2, h3, h4⟩
        refine ⟨m1, m2, m3, m4, ?_⟩
        rcases m5 with m5 | m5
        · exact Or.inl m5
        · refine Or.inr fun k hk => ?_
          rcases List.mem_cons.1 hk with hk | hk
          · subst hk
            exact m4 p.1 hc
          · exact m5 k hk
      | some cf =>
        have hbs : BookInv
            { s with cache := dictPop p.1 s.cache,
                     access_times := dictPop p.1 s.access_times,
                     current_memory_usage :=
                       s.current_memory_usage - (cf.memory_usage : Int) } := by
          refine ⟨?_, nodup_keys_dictPop _ _ h2, nodup_keys_dictPop _ _ h3, ?_⟩
          · show s.current_memory_usage - (cf.memory_usage : Int) =
              cacheSum (dictPop p.1 s.cache)
            rw [cacheSum_dictPop p.1 cf s.cache hc, h1]
          · intro k hk
            show (dictGet k (dictPop p.1 s.access_times)).isSome
            by_cases hkp : k = p.1
            · subst hkp
              rw [dictGet_dictPop_self p.1 s.cache h2] at hk
              simp at hk
            · rw [dictGet_dictPop_ne p.1 k s.cache hkp] at hk
              rw [dictGet_dictPop_ne p.1 k s.access_times hkp]
              exact h4 k hk
        obtain ⟨m1, m2, m3, m4, m5⟩ := ih _ hbs
        refine ⟨m1, m2, m3, fun k hk => m4 k (dictGet_none_dictPop p.1 k s.cache hk), ?_⟩
        rcases m5 with m5 | m5
        · exact Or.inl m5
        · refine Or.inr fun k hk => ?_
          rcases List.mem_cons.1 hk with hk | hk
          · subst hk
            exact m4 p.1 (dictGet_dictPop_self p.1 s.cache h2)
          · exact m5 k hk

/-- Everything `evict_lru_if_needed` guarantees; on exit either the candidate
fits within the (unchanged) budget or the cache has been emptied. -/
theorem evict_spec (s : CacheState) (needed : Nat) (hb : BookInv s) :
    BookInv (evict_lru_if_needed s needed) ∧
    (evict_lru_if_needed s needed).max_memory_bytes = s.max_memory_bytes ∧
    (evict_lru_if_needed s needed).processing_queue = s.processing_queue ∧
    (∀ k, dictGet k s.cache = none →
        dictGet k (evict_lru_if_needed s needed).cache = none) ∧
    ((evict_lru_if_needed s needed).current_memory_usage + (needed : Int) ≤
        (s.max_memory_bytes : Int) ∨
      (evict_lru_if_needed s needed).cache = []) := by
  unfold evict_lru_if_needed
  by_cases hle : s.current_memory_usage + (needed : Int) ≤ (s.max_memory_bytes : Int)
  · rw [if_pos hle]
    exact ⟨hb, rfl, rfl, fun k hk => hk, Or.inl hle⟩
  · rw [if_neg hle]
    obtain ⟨m1, m2, m3, m4, m5⟩ := evictLoop_spec needed (sortByTime s.access_times) s hb
    refine ⟨m1, m2, m3, m4, ?_⟩
    rcases m5 with m5 | m5
    · exact Or.inl (m2 ▸ m5)
    · refine Or.inr (dict_eq_nil_of_forall_none _ fun k => ?_)
      cases hkc : dictGet k (evictLoop needed (sortByTime s.access_times) s).cache with
      | none => rfl
      | some v =>
        exfalso
        have hks : (dictGet k s.cache).isSome := by
          cases hsc : dictGet k s.cache with
          | none => rw [m4 k hsc] at hkc; exact Option.noConfusion hkc
          | some _ => rfl
        have hka : (dictGet k s.access_times).isSome := hb.2.2.2 k hks
        have hmem : k ∈ s.access_times.map Prod.fst := by
          by_contra hnm
          rw [(dictGet_eq_none_iff k s.access_times).2 hnm] at hka
          simp at hka
        have := m5 k (mem_keys_sortByTime k s.access_times hmem)
        rw [this] at hkc
        exact Option.noConfusion hkc

/-- The publish tail preserves the invariant pieces, provided the published
identifier is not already cached; afterwards either the store fits the budget
or the published entry sits alone and is itself oversized. -/
theorem publishEntry_preserves (s : CacheState) (now : Nat)
    (id nm ct : String) (pd : ProcessedData) (cost : Nat) (fh : String)
    (hid : dictGet id s.cache = none) (hb : BookInv s) :
    BookInv (publishEntry s now id nm ct pd cost fh).1 ∧
    (publishEntry s now id nm ct pd cost fh).1.max_memory_bytes = s.max_memory_bytes ∧
    (publishEntry s now id nm ct pd cost fh).1.processing_queue = s.processing_queue ∧
    (∀ k, k ≠ id → dictGet k s.cache = none →
        dictGet k (publishEntry s now id nm ct pd cost fh).1.cache = none) ∧
    BudgetInv (publishEntry s now id nm ct pd cost fh).1 := by
  obtain ⟨m1, m2, m3, m4, m5⟩ := evict_spec s cost hb
  set E := evict_lru_if_needed s cost with hE
  obtain ⟨e1, e2, e3, e4⟩ := m1
  have hidE : dictGet id E.cache = none := m4 id hid
  set cf : CachedFile :=
    { file_id := id, filename := nm, content_type := ct,
      processed_data := some pd, memory_usage := cost,
      file_hash := fh, is_placeholder := false } with hcf
  have hgoal : (publishEntry s now id nm ct pd cost fh).1 =
      { E with cache := dictSet id cf E.cache,
               access_times := dictSet id now E.access_times,
               current_memory_usage := E.current_memory_usage + (cost : Int) } := rfl
  rw [hgoal]
  refine ⟨⟨?_, nodup_keys_dictSet _ _ _ e2, nodup_keys_dictSet _ _ _ e3, ?_⟩,
    m2, m3, ?_, ?_⟩
  · show E.current_memory_usage + (cost : Int) = cacheSum (dictSet id cf E.cache)
    rw [cacheSum_dictSet_none id cf E.cache hidE, ← e1]
  · intro k hk
    show (dictGet k (dictSet id now E.access_times)).isSome
    by_cases hkid : k = id
    · subst hkid
      rw [dictGet_dictSet_self]
      rfl
    · rw [dictGet_dictSet_ne id k cf E.cache hkid] at hk
      rw [dictGet_dictSet_ne id k now E.access_times hkid]
      exact e4 k hk
  · intro k hkid hk
    show dictGet k (dictSet id cf E.cache) = none
    rw [dictGet_dictSet_ne id k cf E.cache hkid]
    exact m4 k hk
  · rcases m5 with m5 | m5
    · exact Or.inl (by simpa [m2] using m5)
    · have hcur : E.current_memory_usage = 0 := by
        rw [e1, m5, cacheSum_nil]
      by_cases hfit : (cost : Int) ≤ (s.max_memory_bytes : Int)
      · refine Or.inl ?_
        show E.current_memory_usage + (cost : Int) ≤ (E.max_memory_bytes : Int)
        rw [hcur, m2]
        simpa using hfit
      · refine Or.inr ⟨id, cf, ?_, ?_⟩
        · show dictSet id cf E.cache = [(id, cf)]
          rw [m5]
          rfl
        · show (E.max_memory_bytes : Int) < (cf.memory_usage : Int)
          rw [m2]
          have : (cost : Int) = (cf.memory_usage : Int) := rfl
          omega

/-- The state effect of one `process_file_async` body: it either leaves the
state unchanged (dedup hit, or a caught exception) or publishes its entry
after making room. -/
theorem process_preserves (ext : Externals) (s : CacheState) (now : Nat)
    (id : String) (obj : FileObj)
    (hid : dictGet id s.cache = none) (hb : BookInv s) :
    BookInv (process_file_async ext s now id obj).1 ∧
    (process_file_async ext s now id obj).1.max_memory_bytes = s.max_memory_bytes ∧
    (process_file_async ext s now id obj).1.processing_queue = s.processing_queue ∧
    (∀ k, k ≠ id → dictGet k s.cache = none →
        dictGet k (process_file_async ext s now id obj).1.cache = none) ∧
    (BudgetInv s → BudgetInv (process_file_async ext s now id obj).1) := by
  simp only [process_file_async]
  cases hfb : find_by_hash s (get_file_hash ext obj.data) with
  | some ex => exact ⟨hb, rfl, rfl, fun k _ hk => hk, fun h => h⟩
  | none =>
    dsimp only
    split
    · exact ⟨hb, rfl, rfl, fun k _ hk => hk, fun h => h⟩
    · rename_i pd heq
      obtain ⟨m1, m2, m3, m4, m5⟩ :=
        publishEntry_preserves s now id obj.name
          (if obj.type = "application/pdf" then "pdf" else "image") pd
          (if (if obj.type = "application/pdf" then "pdf" else "image") = "pdf" then
            (pd.getTextContent.getD "").utf8ByteSize
          else pd.imageCost)
          (get_file_hash ext obj.data) hid hb
      exact ⟨m1, m2, m3, m4, fun _ => m5⟩

theorem storeInv_init (mb : Nat) : StoreInv (cacheInit mb) := by
  refine ⟨⟨rfl, by simp [cacheInit], by simp [cacheInit], ?_⟩,
    by simp [cacheInit], ?_, Or.inl ?_⟩
  · intro k hk
    simp [cacheInit, dictGet] at hk
  · intro k o hko
    simp [cacheInit, dictGet] at hko
  · show (0 : Int) ≤ ((mb * 1024 * 1024 : Nat) : Int)
    positivity

theorem storeInv_get_or_create (s : CacheState) (now : Nat) (id : String)
    (obj : FileObj) (h : StoreInv s) : StoreInv (get_or_create s now id obj).1 := by
  obtain ⟨⟨h1, h2, h3, h4⟩, hq, hrun, hbud⟩ := h
  unfold get_or_create
  cases hc : dictGet id s.cache with
  | some cf =>
    refine ⟨⟨h1, h2, nodup_keys_dictSet _ _ _ h3, ?_⟩, hq, hrun, hbud⟩
    intro k hk
    show (dictGet k (dictSet id now s.access_times)).isSome
    by_cases hkid : k = id
    · subst hkid
      rw [dictGet_dictSet_self]
      rfl
    · rw [dictGet_dictSet_ne id k now s.access_times hkid]
      exact h4 k hk
  | none =>
    cases hf : dictGet id s.processing_queue with
    | none =>
      refine ⟨⟨h1, h2, h3, h4⟩, nodup_keys_dictSet _ _ _ hq, ?_, hbud⟩
      intro k o hko
      by_cases hkid : k = id
      · subst hkid
        exact hc
      · rw [dictGet_dictSet_ne id k (Future.running obj) s.processing_queue hkid] at hko
        exact hrun k o hko
    | some fut =>
      cases fut with
      | running o2 => exact ⟨⟨h1, h2, h3, h4⟩, hq, hrun, hbud⟩
      | done r =>
        refine ⟨⟨h1, h2, h3, h4⟩, nodup_keys_dictPop _ _ hq, ?_, hbud⟩
        intro k o hko
        by_cases hkid : k = id
        · subst hkid
          rw [dictGet_dictPop_self _ s.processing_queue hq] at hko
          exact Option.noConfusion hko
        · rw [dictGet_dictPop_ne id k s.processing_queue hkid] at hko
          exact hrun k o hko

theorem storeInv_completeJob (ext : Externals) (s : CacheState) (now : Nat)
    (id : String) (h : StoreInv s) : StoreInv (completeJob ext s now id) := by
  obtain ⟨hb, hq, hrun, hbud⟩ := h
  unfold completeJob
  cases hf : dictGet id s.processing_queue with
  | none => exact ⟨hb, hq, hrun, hbud⟩
  | some fut =>
    cases fut with
    | done r => exact ⟨hb, hq, hrun, hbud⟩
    | running obj =>
      have hid : dictGet id s.cache = none := hrun id obj hf
      obtain ⟨m1, m2, m3, m4, m5⟩ := process_preserves ext s now id obj hid hb
      dsimp only
      refine ⟨m1, ?_, ?_, m5 hbud⟩
      · show ((dictSet id (Future.done (process_file_async ext s now id obj).2)
            (process_file_async ext s now id obj).1.processing_queue).map Prod.fst).Nodup
        rw [m3]
        exact nodup_keys_dictSet _ _ _ hq
      · intro k o hko
        show dictGet k (process_file_async ext s now id obj).1.cache = none
        replace hko : dictGet k (dictSet id
            (Future.done (process_file_async ext s now id obj).2)
            (process_file_async ext s now id obj).1.processing_queue) =
              some (Future.running o) := hko
        rw [m3] at hko
        by_cases hkid : k = id
        · subst hkid
          rw [dictGet_dictSet_self] at hko
          simp at hko
        · rw [dictGet_dictSet_ne _ _ _ _ hkid] at hko
          exact m4 k hkid (hrun k o hko)

theorem storeInv_remove (s : CacheState) (id : String) (h : StoreInv s) :
    StoreInv (remove_file s id) := by
  obtain ⟨⟨h1, h2, h3, h4⟩, hq, hrun, hbud⟩ := h
  unfold remove_file
  cases hc : dictGet id s.cache with
  | none => exact ⟨⟨h1, h2, h3, h4⟩, hq, hrun, hbud⟩
  | some cf =>
    refine ⟨⟨?_, nodup_keys_dictPop _ _ h2, nodup_keys_dictPop _ _ h3, ?_⟩, hq, ?_, ?_⟩
    · show s.current_memory_usage - (cf.memory_usage : Int) = cacheSum (dictPop id s.cache)
      rw [cacheSum_dictPop id cf s.cache hc, h1]
    · intro k hk
      replace hk : (dictGet k (dictPop id s.cache)).isSome := hk
      show (dictGet k (dictPop id s.access_times)).isSome
      by_cases hkid : k = id
      · subst hkid
        rw [dictGet_dictPop_self _ s.cache h2] at hk
        simp at hk
      · rw [dictGet_dictPop_ne id k s.cache hkid] at hk
        rw [dictGet_dictPop_ne id k s.access_times hkid]
        exact h4 k hk
    · intro k o hko
      show dictGet k (dictPop id s.cache) = none
      exact dictGet_none_dictPop id k s.cache (hrun k o hko)
    · rcases hbud with hbud | ⟨k0, cf0, hc0, hbig⟩
      · refine Or.inl ?_
        show s.current_memory_usage - (cf.memory_usage : Int) ≤ (s.max_memory_bytes : Int)
        have hpos : (0 : Int) ≤ (cf.memory_usage : Int) := by positivity
        omega
      · have hcur : s.current_memory_usage = (cf0.memory_usage : Int) := by
          rw [h1, hc0]
          simp [cacheSum]
        rw [hc0] at hc
        simp only [dictGet] at hc
        split at hc
        · injection hc with hcc
          have hcast : (cf0.memory_usage : Int) = (cf.memory_usage : Int) := by rw [hcc]
          refine Or.inl ?_
          show s.current_memory_usage - (cf.memory_usage : Int) ≤ (s.max_memory_bytes : Int)
          omega
        · exact Option.noConfusion hc

theorem storeInv_clear (s : CacheState) : StoreInv (clear s) := by
  refine ⟨⟨rfl, by simp [clear], by simp [clear], ?_⟩, by simp [clear], ?_, Or.inl ?_⟩
  · intro k hk
    simp [clear, dictGet] at hk
  · intro k o hko
    simp [clear, dictGet] at hko
  · show (0 : Int) ≤ (s.max_memory_bytes : Int)
    positivity

/-- Every reachable state satisfies the full store invariant. -/
theorem storeInv_reachable (ext : Externals) (s : CacheState)
    (h : Reachable ext s) : StoreInv s := by
  induction h with
  | init mb => exact storeInv_init mb
  | step_get s now id obj _ ih => exact storeInv_get_or_create s now id obj ih
  | step_complete s now id _ ih => exact storeInv_completeJob ext s now id ih
  | step_remove s id _ ih => exact storeInv_remove s id ih
  | step_clear s _ _ => exact storeInv_clear s

/-! ## Concrete instantiations of the external primitives, for scenarios -/

/-- Deterministic stand-ins for the external primitives: the digest is a
printable encoding of the hashed prefix, a decoded bitmap is as wide as its
byte count, and extraction yields a single page. -/
def extOk : Externals :=
  { blake2b8 := fun bs => toString bs,
    decodeImage := fun bs => Except.ok (bs.length, 1),
    fitzExtract := fun _ => Except.ok ["hello"] }

/-- Stand-ins whose decoding and extraction raise. -/
def extFail : Externals :=
  { blake2b8 := fun bs => toString bs,
    decodeImage := fun _ => Except.error "boom",
    fitzExtract := fun _ => Except.error "bad xref" }

/-! ## Claim C8 -/

/-- C8: `get_for_ai_model` returns `None` for placeholders, returns `None`
for error entries (so an error entry never contributes a payload to the
model request), returns the decoded bitmap object for ready image entries,
and returns the extracted text for ready pdf entries; it is a total
function, so it never raises. -/
theorem get_for_ai_model_spec (f : CachedFile) :
    (f.is_placeholder = true → f.get_for_ai_model = none) ∧
    (f.content_type = "error" → f.get_for_ai_model = none) ∧
    (∀ pd, f.is_ready = true → f.content_type = "image" →
        f.processed_data = some pd →
        f.get_for_ai_model = some (ModelPayload.obj pd)) ∧
    (∀ t e, f.is_ready = true → f.content_type = "pdf" →
        f.processed_data = some (ProcessedData.pdfDict t e) →
        f.get_for_ai_model = some (ModelPayload.text t)) := by
  refine ⟨?_, ?_, ?_, ?_⟩
  · intro hp
    unfold CachedFile.get_for_ai_model CachedFile.is_ready
    rw [hp]
    simp
  · intro he
    by_cases hr : f.is_ready = false
    · unfold CachedFile.get_for_ai_model
      rw [if_pos hr]
    · unfold CachedFile.get_for_ai_model
      rw [if_neg hr, he,
        if_neg (by decide : ¬ ("error" : String) = "image"),
        if_neg (by decide : ¬ ("error" : String) = "pdf")]
  · intro pd hr him hpd
    unfold CachedFile.get_for_ai_model
    rw [hr, if_neg (by decide : ¬ true = false), him, if_pos rfl, hpd]
    rfl
  · intro t e hr hpdf hpd
    unfold CachedFile.get_for_ai_model
    rw [hr, if_neg (by decide : ¬ true = false), hpdf,
      if_neg (by decide : ¬ ("pdf" : String) = "image"), if_pos rfl, hpd]
    rfl

theorem get_for_ai_model_spec_witness :
    (CachedFile.placeholder "a" "a.png").get_for_ai_model = none ∧
    (errorFile "b" ⟨"b.png", "image/png", [1]⟩ "boom").get_for_ai_model = none ∧
    ({ file_id := "c", filename := "c.png", content_type := "image",
       processed_data := some (ProcessedData.image 2 2), memory_usage := 12,
       file_hash := "h", is_placeholder := false } : CachedFile).get_for_ai_model
      = some (ModelPayload.obj (ProcessedData.image 2 2)) ∧
    ({ file_id := "d", filename := "d.pdf", content_type := "pdf",
       processed_data := some (ProcessedData.pdfDict "hi" false), memory_usage := 2,
       file_hash := "h2", is_placeholder := false } : CachedFile).get_for_ai_model
      = some (ModelPayload.text "hi") := by
  refine ⟨?_, ?_, ?_, ?_⟩
  · exact (get_for_ai_model_spec _).1 rfl
  · exact (get_for_ai_model_spec _).2.1 rfl
  · exact (get_for_ai_model_spec _).2.2.1 _ rfl rfl rfl
  · exact (get_for_ai_model_spec _).2.2.2 _ _ rfl rfl rfl

/-! ## Claim C9 -/

/-- C9: on any input whose PDF extraction raises, the job does not raise:
it produces a "pdf" entry whose payload is the non-empty placeholder string
embedding the error reason together with the error flag, whose memory cost
is the encoded byte length of that placeholder, and on which
`get_for_ai_model` returns exactly that error-marker text. -/
theorem pdf_failure_graceful (ext : Externals) (s : CacheState) (now : Nat)
    (fid : String) (obj : FileObj) (e : String)
    (hty : obj.type = "application/pdf")
    (hfail : ext.fitzExtract obj.data = Except.error e)
    (hnodup : find_by_hash s (get_file_hash ext obj.data) = none) :
    (process_file_async ext s now fid obj).2.content_type = "pdf" ∧
    (process_file_async ext s now fid obj).2.processed_data =
      some (ProcessedData.pdfDict ("[Errore estrazione PDF: " ++ e ++ "]") true) ∧
    (process_file_async ext s now fid obj).2.memory_usage =
      ("[Errore estrazione PDF: " ++ e ++ "]").utf8ByteSize ∧
    (process_file_async ext s now fid obj).2.get_for_ai_model =
      some (ModelPayload.text ("[Errore estrazione PDF: " ++ e ++ "]")) ∧
    ("[Errore estrazione PDF: " ++ e ++ "]") ≠ "" := by
  have hpd : extract_pdf_text ext obj.data 10 =
      ProcessedData.pdfDict ("[Errore estrazione PDF: " ++ e ++ "]") true := by
    unfold extract_pdf_text
    rw [hfail]
  have hres : (process_file_async ext s now fid obj).2 =
      { file_id := fid, filename := obj.name, content_type := "pdf",
        processed_data :=
          some (ProcessedData.pdfDict ("[Errore estrazione PDF: " ++ e ++ "]") true),
        memory_usage := ("[Errore estrazione PDF: " ++ e ++ "]").utf8ByteSize,
        file_hash := get_file_hash ext obj.data, is_placeholder := false } := by
    simp only [process_file_async, hnodup, hty, hpd, publishEntry,
      ProcessedData.getTextContent, Option.getD]
    simp
  refine ⟨by rw [hres], by rw [hres], by rw [hres], ?_, ?_⟩
  · rw [hres]
    rfl
  · intro hcontra
    have hd : ("[Errore estrazione PDF: " ++ e).data ++ "]".data = [] :=
      congrArg String.data hcontra
    have hd2 : "]".data = [']'] := rfl
    rw [hd2] at hd
    simp at hd

theorem pdf_failure_graceful_witness :
    (process_file_async extFail (cacheInit 1) 0 "bad"
        ⟨"bad.pdf", "application/pdf", [3]⟩).2.processed_data =
      some (ProcessedData.pdfDict "[Errore estrazione PDF: bad xref]" true) ∧
    (process_file_async extFail (cacheInit 1) 0 "bad"
        ⟨"bad.pdf", "application/pdf", [3]⟩).2.memory_usage = 33 ∧
    (process_file_async extFail (cacheInit 1) 0 "bad"
        ⟨"bad.pdf", "application/pdf", [3]⟩).2.get_for_ai_model =
      some (ModelPayload.text "[Errore estrazione PDF: bad xref]") := by
  have h := pdf_failure_graceful extFail (cacheInit 1) 0 "bad"
    ⟨"bad.pdf", "application/pdf", [3]⟩ "bad xref" rfl rfl rfl
  exact ⟨h.2.1, h.2.2.1, h.2.2.2.1⟩

/-! ## Claim C5 -/

/-- C5: `get_or_create` on an identifier that is neither cached nor in
flight submits exactly one job (appending exactly one handle to the
in-flight map), returns a pending placeholder, and leaves the cache, the
access table and the memory total untouched (no processing happens on the
caller's path); a second call on the same identifier while that job is
recorded and not complete returns a pending placeholder again and changes
nothing at all. -/
theorem get_or_create_unknown_pending (s : CacheState) (now n2 : Nat)
    (fid : String) (obj : FileObj)
    (hc : dictGet fid s.cache = none)
    (hq : dictGet fid s.processing_queue = none) :
    get_or_create s now fid obj =
      ({ s with processing_queue :=
           dictSet fid (Future.running obj) s.processing_queue },
       CachedFile.placeholder fid obj.name) ∧
    dictSet fid (Future.running obj) s.processing_queue =
      s.processing_queue ++ [(fid, Future.running obj)] ∧
    get_or_create
        { s with processing_queue :=
            dictSet fid (Future.running obj) s.processing_queue } n2 fid obj =
      ({ s with processing_queue :=
           dictSet fid (Future.running obj) s.processing_queue },
       CachedFile.placeholder fid obj.name) := by
  refine ⟨?_, dictSet_of_none fid _ s.processing_queue hq, ?_⟩
  · unfold get_or_create
    rw [hc, hq]
  · unfold get_or_create
    dsimp only
    rw [hc, dictGet_dictSet_self]

theorem get_or_create_unknown_pending_witness :
    get_or_create (cacheInit 1) 0 "w5" ⟨"w.png", "image/png", [7]⟩ =
      ({ cacheInit 1 with processing_queue :=
           [("w5", Future.running ⟨"w.png", "image/png", [7]⟩)] },
       CachedFile.placeholder "w5" "w.png") ∧
    get_or_create
        ({ cacheInit 1 with processing_queue :=
            [("w5", Future.running ⟨"w.png", "image/png", [7]⟩)] }) 1 "w5"
        ⟨"w.png", "image/png", [7]⟩ =
      ({ cacheInit 1 with processing_queue :=
           [("w5", Future.running ⟨"w.png", "image/png", [7]⟩)] },
       CachedFile.placeholder "w5" "w.png") := by
  have h := get_or_create_unknown_pending (cacheInit 1) 0 1 "w5"
    ⟨"w.png", "image/png", [7]⟩ rfl rfl
  exact ⟨h.1, h.2.2⟩

/-! ## Claim C10 -/

/-- C10: `remove_file` deletes the ready entry and its access time and
subtracts its cost, but never touches the in-flight map; so when a completed
job for the same identifier is still recorded there, the next
`get_or_create` pops that job and returns its cached-file result — the
removed entry reappears once as a return value — while the cache, the access
table and the memory total stay those of the post-remove state; the call
after that returns a fresh pending placeholder. -/
theorem remove_stale_future_reappear (s : CacheState) (n2 n3 : Nat)
    (fid : String) (obj : FileObj) (cf res : CachedFile)
    (hc : dictGet fid s.cache = some cf)
    (hq : dictGet fid s.processing_queue = some (Future.done res))
    (hnc : (s.cache.map Prod.fst).Nodup)
    (hnq : (s.processing_queue.map Prod.fst).Nodup) :
    remove_file s fid =
      { s with cache := dictPop fid s.cache,
               access_times := dictPop fid s.access_times,
               current_memory_usage :=
                 s.current_memory_usage - (cf.memory_usage : Int) } ∧
    (remove_file s fid).processing_queue = s.processing_queue ∧
    get_or_create (remove_file s fid) n2 fid obj =
      ({ remove_file s fid with
           processing_queue := dictPop fid s.processing_queue }, res) ∧
    (get_or_create
        ({ remove_file s fid with
            processing_queue := dictPop fid s.processing_queue }) n3 fid obj).2 =
      CachedFile.placeholder fid obj.name := by
  have hrm : remove_file s fid =
      { s with cache := dictPop fid s.cache,
               access_times := dictPop fid s.access_times,
               current_memory_usage :=
                 s.current_memory_usage - (cf.memory_usage : Int) } := by
    unfold remove_file
    rw [hc]
  refine ⟨hrm, by rw [hrm], ?_, ?_⟩
  · rw [hrm]
    unfold get_or_create
    dsimp only
    rw [dictGet_dictPop_self _ s.cache hnc, hq]
  · rw [hrm]
    unfold get_or_create
    dsimp only
    rw [dictGet_dictPop_self _ s.cache hnc, dictGet_dictPop_self _ s.processing_queue hnq]

/-- A ready pdf entry used by concrete removal scenarios. -/
def cfR : CachedFile :=
  { file_id := "r", filename := "r.pdf", content_type := "pdf",
    processed_data := some (ProcessedData.pdfDict "hello" false),
    memory_usage := 5, file_hash := "[9]", is_placeholder := false }

/-- A store holding `cfR` both as a ready entry and as a completed job. -/
def sR : CacheState :=
  { max_memory_bytes := 1024, cache := [("r", cfR)],
    processing_queue := [("r", Future.done cfR)],
    access_times := [("r", 4)], current_memory_usage := 5 }

theorem remove_stale_future_reappear_witness :
    get_or_create (remove_file sR "r") 6 "r" ⟨"r.pdf", "application/pdf", [9]⟩ =
      ({ max_memory_bytes := 1024, cache := [], processing_queue := [],
         access_times := [], current_memory_usage := 0 }, cfR) := by
  have h := remove_stale_future_reappear sR 6 7 "r"
    ⟨"r.pdf", "application/pdf", [9]⟩ cfR cfR rfl rfl (by decide) (by decide)
  rw [h.2.2.1]
  decide

/-! ## Claim C4 -/

/-- Ready image entry A of the LRU scenario: cost 30, accessed at t=1. -/
def cfA : CachedFile :=
  { file_id := "A", filename := "a.png", content_type := "image",
    processed_data := some (ProcessedData.image 10 1), memory_usage := 30,
    file_hash := "hA", is_placeholder := false }

/-- Ready image entry B of the LRU scenario: cost 51, accessed at t=2. -/
def cfB : CachedFile :=
  { file_id := "B", filename := "b.png", content_type := "image",
    processed_data := some (ProcessedData.image 17 1), memory_usage := 51,
    file_hash := "hB", is_placeholder := false }

/-- Ready image entry C of the LRU scenario: cost 48, accessed at t=3. -/
def cfC : CachedFile :=
  { file_id := "C", filename := "c.png", content_type := "image",
    processed_data := some (ProcessedData.image 16 1), memory_usage := 48,
    file_hash := "hC", is_placeholder := false }

/-- The 12-byte image whose processed cost under `extOk` is 12·1·3 = 36. -/
def objD : FileObj :=
  ⟨"d.png", "image/png", [0, 1, 2, 3, 4, 5, 6, 7, 8, 9, 10, 11]⟩

/-- The entry `process_file_async` builds for `objD` under `extOk`. -/
def cfD : CachedFile :=
  { file_id := "D", filename := "d.png", content_type := "image",
    processed_data := some (ProcessedData.image 12 1), memory_usage := 36,
    file_hash := "[0, 1, 2, 3, 4, 5, 6, 7, 8, 9, 10, 11]",
    is_placeholder := false }

/-- Same entry published under identifier "E". -/
def cfE : CachedFile :=
  { file_id := "E", filename := "d.png", content_type := "image",
    processed_data := some (ProcessedData.image 12 1), memory_usage := 36,
    file_hash := "[0, 1, 2, 3, 4, 5, 6, 7, 8, 9, 10, 11]",
    is_placeholder := false }

/-- The LRU scenario store: budget 99, entries A+B+C = 129 = budget + cost A,
with B+C = 99 = budget, accessed at t = 1, 2, 3. -/
def s4 : CacheState :=
  { max_memory_bytes := 99, cache := [("A", cfA), ("B", cfB), ("C", cfC)],
    processing_queue := [], access_times := [("A", 1), ("B", 2), ("C", 3)],
    current_memory_usage := 129 }

/-- C4: the eviction loop walks the access-time table sorted ascending by
timestamp (oldest `lastAccess` first); in the scenario of the claim — A, B, C
accessed at t=1,2,3, their combined cost exceeding the budget by exactly A's
cost — admitting D evicts A first, then B (still insufficient after A alone),
preserves C, and publishes D with the exact remaining total; and a candidate
that does not fit even with an empty cache is inserted anyway, leaving
`current_memory_usage` above the budget. -/
theorem lru_eviction_order :
    (∀ l : List (String × Nat),
      List.Sorted (fun a b : String × Nat => a.2 ≤ b.2) (sortByTime l)) ∧
    process_file_async extOk s4 4 "D" objD =
      ({ max_memory_bytes := 99, cache := [("C", cfC), ("D", cfD)],
         processing_queue := [], access_times := [("C", 3), ("D", 4)],
         current_memory_usage := 84 }, cfD) ∧
    process_file_async extOk
        { max_memory_bytes := 10, cache := [], processing_queue := [],
          access_times := [], current_memory_usage := 0 } 1 "E" objD =
      ({ max_memory_bytes := 10, cache := [("E", cfE)], processing_queue := [],
         access_times := [("E", 1)], current_memory_usage := 36 }, cfE) := by
  refine ⟨sorted_sortByTime, ?_, ?_⟩ <;> decide

/-! ## Claim C1 -/

/-- First upload of the two-byte image `[9, 9]`. -/
def obj1 : FileObj := ⟨"one.png", "image/png", [9, 9]⟩

/-- Second upload instance: a distinct identifier, same bytes as `obj1`. -/
def obj2 : FileObj := ⟨"two.png", "image/png", [9, 9]⟩

/-- The entry the first job publishes under "id1" (cost 2·1·3 = 6). -/
def cf1 : CachedFile :=
  { file_id := "id1", filename := "one.png", content_type := "image",
    processed_data := some (ProcessedData.image 2 1), memory_usage := 6,
    file_hash := "[9, 9]", is_placeholder := false }

/-- Submit "id1". -/
def sDedup1 : CacheState := (get_or_create (cacheInit 1) 0 "id1" obj1).1

/-- First job completes and publishes `cf1`. -/
def sDedup2 : CacheState := completeJob extOk sDedup1 1 "id1"

/-- Submit "id2" (same bytes, dedup will hit). -/
def sDedup3 : CacheState := (get_or_create sDedup2 2 "id2" obj2).1

/-- Second job completes via the fingerprint short-circuit. -/
def sDedup4 : CacheState := completeJob extOk sDedup3 3 "id2"

/-- C1 counterexample: after the deduplicated job for "id2" completes, the
second identifier has NO entry of its own in the entries map and the memory
total still accounts only the first entry's cost — contradicting the claim
that each alias stores its own entry with independently accounted cost; and
`get_or_create` on "id2" returns the first identifier's ready entry exactly
once (popping the completed job), after which the next call returns a pending
placeholder again — contradicting "a ready entry on every subsequent call
without triggering reprocessing". -/
theorem dedup_alias_cex :
    dictGet "id2" sDedup4.cache = none ∧
    sDedup4.current_memory_usage = 6 ∧
    (get_or_create sDedup4 4 "id2" obj2).2 = cf1 ∧
    (get_or_create (get_or_create sDedup4 4 "id2" obj2).1 5 "id2"
        obj2).2.is_placeholder = true := by
  decide

/-- C1 amended: when the job for a second identifier finds an entry with the
same fingerprint already cached, it skips the content processor and completes
immediately with the existing entry as its result, storing nothing: the store
is unchanged, so the second identifier gets no entry of its own and
`usedBytes` accounts no second cost.  A later `get_or_create` on the second
identifier returns the existing ready entry exactly once, by popping the
completed job; after that the identifier is unknown again, so the next call
resubmits processing and returns a pending placeholder. -/
theorem dedup_alias_behavior (ext : Externals) (s : CacheState)
    (now n2 n3 : Nat) (fid : String) (obj : FileObj) (ex : CachedFile)
    (hdedup : find_by_hash s (get_file_hash ext obj.data) = some ex)
    (hq : dictGet fid s.processing_queue = some (Future.running obj))
    (hc : dictGet fid s.cache = none)
    (hnq : (s.processing_queue.map Prod.fst).Nodup) :
    process_file_async ext s now fid obj = (s, ex) ∧
    completeJob ext s now fid =
      { s with processing_queue :=
          dictSet fid (Future.done ex) s.processing_queue } ∧
    get_or_create
        ({ s with processing_queue :=
            dictSet fid (Future.done ex) s.processing_queue }) n2 fid obj =
      ({ s with processing_queue :=
          dictPop fid (dictSet fid (Future.done ex) s.processing_queue) }, ex) ∧
    (get_or_create
        ({ s with processing_queue :=
            dictPop fid (dictSet fid (Future.done ex) s.processing_queue) })
        n3 fid obj).2 =
      CachedFile.placeholder fid obj.name := by
  have hrun : process_file_async ext s now fid obj = (s, ex) := by
    simp only [process_file_async, hdedup]
  refine ⟨hrun, ?_, ?_, ?_⟩
  · unfold completeJob
    rw [hq]
    dsimp only
    rw [hrun]
  · unfold get_or_create
    dsimp only
    rw [hc, dictGet_dictSet_self]
  · unfold get_or_create
    dsimp only
    rw [hc, dictGet_dictPop_self _ _ (nodup_keys_dictSet _ _ _ hnq)]

theorem dedup_alias_behavior_witness :
    process_file_async extOk sDedup3 3 "id2" obj2 = (sDedup3, cf1) ∧
    (get_or_create (completeJob extOk sDedup3 3 "id2") 4 "id2" obj2).2 = cf1 ∧
    (get_or_create
        (get_or_create (completeJob extOk sDedup3 3 "id2") 4 "id2" obj2).1
        5 "id2" obj2).2 =
      CachedFile.placeholder "id2" "two.png" := by
  have h := dedup_alias_behavior extOk sDedup3 3 4 5 "id2" obj2 cf1
    (by decide) (by decide) (by decide) (by decide)
  refine ⟨h.1, ?_, ?_⟩
  · rw [h.2.1, h.2.2.1]
  · rw [h.2.1, h.2.2.1]
    exact h.2.2.2

/-! ## Claim C2 -/

/-- An upload whose image decoding raises under `extFail`. -/
def objX : FileObj := ⟨"x.png", "image/png", [5]⟩

/-- Submit "x". -/
def sErr1 : CacheState := (get_or_create (cacheInit 1) 0 "x" objX).1

/-- The job for "x" completes by catching the decode exception. -/
def sErr2 : CacheState := completeJob extFail sErr1 1 "x"

/-- C2 counterexample: after a job that raised completes, its error entry is
NOT published into the entries map (the identifier is absent from the cache),
contradicting the claim; the error entry exists only as the completed job's
result, is returned exactly once by the next `get_or_create` (which pops the
job), and the call after that resubmits processing and returns a pending
placeholder instead of the error entry. -/
theorem job_error_not_published_cex :
    dictGet "x" sErr2.cache = none ∧
    (get_or_create sErr2 2 "x" objX).2 = errorFile "x" objX "boom" ∧
    (get_or_create (get_or_create sErr2 2 "x" objX).1 3 "x"
        objX).2.is_placeholder = true := by
  decide

/-- C2 amended: a job that raises an uncaught exception is converted into an
error `CachedFile` returned as the job's result — the exception never
propagates out of the worker — but the error entry is NOT published into the
entries map: the store is unchanged and the future simply completes holding
the error entry.  The per-identifier states are absent → pending →
completed-with-error-result; a later `get_or_create` returns the error entry
exactly once (popping the completed job), after which the identifier is
absent again and processing is resubmitted. -/
theorem job_error_result_behavior (ext : Externals) (s : CacheState)
    (now n2 n3 : Nat) (fid : String) (obj : FileObj) (e : String)
    (err : CachedFile) (herr : err = errorFile fid obj e)
    (hdedup : find_by_hash s (get_file_hash ext obj.data) = none)
    (hty : ¬ obj.type = "application/pdf")
    (hdec : ext.decodeImage obj.data = Except.error e)
    (hq : dictGet fid s.processing_queue = some (Future.running obj))
    (hc : dictGet fid s.cache = none)
    (hnq : (s.processing_queue.map Prod.fst).Nodup) :
    process_file_async ext s now fid obj = (s, err) ∧
    completeJob ext s now fid =
      { s with processing_queue := dictSet fid (Future.done err) s.processing_queue } ∧
    get_or_create
        { s with processing_queue := dictSet fid (Future.done err) s.processing_queue }
        n2 fid obj =
      ({ s with processing_queue :=
          dictPop fid (dictSet fid (Future.done err) s.processing_queue) }, err) ∧
    (get_or_create
        { s with processing_queue :=
            dictPop fid (dictSet fid (Future.done err) s.processing_queue) }
        n3 fid obj).2 =
      CachedFile.placeholder fid obj.name := by
  subst herr
  have hct : (if obj.type = "application/pdf" then "pdf" else "image") = "image" :=
    if_neg hty
  have hrun : process_file_async ext s now fid obj = (s, errorFile fid obj e) := by
    simp only [process_file_async, hdedup, hct, optimize_image, hdec]
    simp [Except.map]
  refine ⟨hrun, ?_, ?_, ?_⟩
  · unfold completeJob
    rw [hq]
    dsimp only
    rw [hrun]
  · unfold get_or_create
    dsimp only
    rw [hc, dictGet_dictSet_self]
  · unfold get_or_create
    dsimp only
    rw [hc, dictGet_dictPop_self _ _ (nodup_keys_dictSet _ _ _ hnq)]

theorem job_error_result_behavior_witness :
    process_file_async extFail sErr1 1 "x" objX = (sErr1, errorFile "x" objX "boom") ∧
    (get_or_create (completeJob extFail sErr1 1 "x") 2 "x" objX).2 =
      errorFile "x" objX "boom" ∧
    (get_or_create
        (get_or_create (completeJob extFail sErr1 1 "x") 2 "x" objX).1
        3 "x" objX).2 =
      CachedFile.placeholder "x" "x.png" := by
  have h := job_error_result_behavior extFail sErr1 1 2 3 "x" objX "boom"
    (errorFile "x" objX "boom") rfl (by decide) (by decide) rfl
    (by decide) (by decide) (by decide)
  refine ⟨h.1, ?_, ?_⟩
  · rw [h.2.1, h.2.2.1]
  · rw [h.2.1, h.2.2.1]
    exact h.2.2.2

/-! ## Claim C6 -/

/-- A one-byte PDF upload for the completion scenario. -/
def objP : FileObj := ⟨"p.pdf", "application/pdf", [1]⟩

/-- The entry its job publishes under "p" ("hello" has 5 bytes). -/
def cfP : CachedFile :=
  { file_id := "p", filename := "p.pdf", content_type := "pdf",
    processed_data := some (ProcessedData.pdfDict "hello" false),
    memory_usage := 5, file_hash := "[1]", is_placeholder := false }

/-- Submit "p", then let its job complete and publish. -/
def sP : CacheState :=
  completeJob extOk ((get_or_create (cacheInit 1) 0 "p" objP).1) 1 "p"

/-- C6 counterexample: immediately after the job for "p" has completed and
published its entry, the identifier is present in the entries map AND its
handle is still present in the in-flight map (now holding the completed
result) — contradicting the claim that the handle is removed as soon as the
job completes and publishes. -/
theorem inflight_not_cleared_cex :
    dictGet "p" sP.cache = some cfP ∧
    dictGet "p" sP.processing_queue = some (Future.done cfP) := by
  decide

/-- The published entry is retrievable under its identifier and is the
job's result. -/
theorem publishEntry_cache_self (s : CacheState) (now : Nat)
    (fid nm ct : String) (pd : ProcessedData) (cost : Nat) (fh : String) :
    dictGet fid (publishEntry s now fid nm ct pd cost fh).1.cache =
      some (publishEntry s now fid nm ct pd cost fh).2 :=
  dictGet_dictSet_self fid _ _

/-- C6 amended: the in-flight handle is NOT removed when its job completes
and publishes: right after completion and publication the identifier is
present simultaneously in both the entries map and the in-flight map, the
future now holding exactly the published entry.  (It is removed only by a
later `get_or_create` that finds the identifier uncached, or by `clear`.) -/
theorem inflight_handle_persists (ext : Externals) (s : CacheState) (now : Nat)
    (fid : String) (obj : FileObj)
    (hq : dictGet fid s.processing_queue = some (Future.running obj))
    (hty : obj.type = "application/pdf")
    (hdedup : find_by_hash s (get_file_hash ext obj.data) = none) :
    dictGet fid (completeJob ext s now fid).cache =
      some (process_file_async ext s now fid obj).2 ∧
    dictGet fid (completeJob ext s now fid).processing_queue =
      some (Future.done (process_file_async ext s now fid obj).2) := by
  have hstep : process_file_async ext s now fid obj =
      publishEntry s now fid obj.name "pdf" (extract_pdf_text ext obj.data 10)
        ((ProcessedData.getTextContent
          (extract_pdf_text ext obj.data 10)).getD "").utf8ByteSize
        (get_file_hash ext obj.data) := by
    simp only [process_file_async, hdedup, hty]
    simp
  have hcj : completeJob ext s now fid =
      { (process_file_async ext s now fid obj).1 with
          processing_queue :=
            dictSet fid (Future.done (process_file_async ext s now fid obj).2)
              (process_file_async ext s now fid obj).1.processing_queue } := by
    unfold completeJob
    rw [hq]
  rw [hcj]
  constructor
  · show dictGet fid (process_file_async ext s now fid obj).1.cache =
      some (process_file_async ext s now fid obj).2
    rw [hstep]
    exact publishEntry_cache_self s now fid obj.name "pdf" _ _ _
  · exact dictGet_dictSet_self fid _ _

theorem inflight_handle_persists_witness :
    dictGet "p" sP.cache =
      some (process_file_async extOk ((get_or_create (cacheInit 1) 0 "p" objP).1)
        1 "p" objP).2 ∧
    dictGet "p" sP.processing_queue =
      some (Future.done (process_file_async extOk
        ((get_or_create (cacheInit 1) 0 "p" objP).1) 1 "p" objP).2) :=
  inflight_handle_persists extOk ((get_or_create (cacheInit 1) 0 "p" objP).1)
    1 "p" objP (by decide) rfl (by decide)

/-! ## Claim C7 -/

/-- A PDF upload whose job is taken to be running across `clear()`. -/
def objQ : FileObj := ⟨"q.pdf", "application/pdf", [2]⟩

/-- The stale entry that job publishes into the cleared store. -/
def cfQ : CachedFile :=
  { file_id := "q", filename := "q.pdf", content_type := "pdf",
    processed_data := some (ProcessedData.pdfDict "hello" false),
    memory_usage := 5, file_hash := "[2]", is_placeholder := false }

/-- C7 counterexample: a job still running when `clear()` is called performs
NO in-flight re-check before publishing — running its body against the
cleared store inserts its entry and its cost there, so a stale entry and a
stale cost become visible after `clear()`, contradicting the claim that such
a result is always discarded. -/
theorem clear_stale_publish_cex :
    dictGet "q" (process_file_async extOk (clear sP) 5 "q" objQ).1.cache =
      some cfQ ∧
    (process_file_async extOk (clear sP) 5 "q" objQ).1.current_memory_usage = 5 := by
  decide

/-- Eviction on a cleared store is the identity (nothing to evict). -/
theorem evict_clear (s : CacheState) (c : Nat) :
    evict_lru_if_needed (clear s) c = clear s := by
  unfold evict_lru_if_needed
  split
  · rfl
  · rfl

/-- C7 amended: `clear()` empties the entries map, the access table and the
in-flight map and resets the total to zero (queued futures are cancelled),
and `getOrCreate` after `clear` starts over from a pending placeholder for
any identifier; but a job already running when `clear` was called does NOT
check that it is still referenced by the in-flight map before publishing:
its body, run against the cleared store, publishes its entry there, making a
stale entry and its stale cost visible. -/
theorem clear_behavior (ext : Externals) (s : CacheState) (n2 n3 : Nat)
    (fid : String) (obj : FileObj)
    (hty : obj.type = "application/pdf") :
    clear s =
      { s with
          cache := [], access_times := [], processing_queue := [],
          current_memory_usage := 0 } ∧
    get_or_create (clear s) n2 fid obj =
      ({ s with
          cache := [], access_times := [],
          processing_queue := [(fid, Future.running obj)],
          current_memory_usage := 0 },
       CachedFile.placeholder fid obj.name) ∧
    dictGet fid (process_file_async ext (clear s) n3 fid obj).1.cache =
      some (process_file_async ext (clear s) n3 fid obj).2 ∧
    (process_file_async ext (clear s) n3 fid obj).1.current_memory_usage =
      ((process_file_async ext (clear s) n3 fid obj).2.memory_usage : Int) := by
  have hstep : process_file_async ext (clear s) n3 fid obj =
      publishEntry (clear s) n3 fid obj.name "pdf"
        (extract_pdf_text ext obj.data 10)
        ((ProcessedData.getTextContent
          (extract_pdf_text ext obj.data 10)).getD "").utf8ByteSize
        (get_file_hash ext obj.data) := by
    have hfb : find_by_hash (clear s) (get_file_hash ext obj.data) = none := rfl
    simp only [process_file_async, hfb, hty]
    simp
  refine ⟨rfl, rfl, ?_, ?_⟩
  · rw [hstep]
    exact publishEntry_cache_self (clear s) n3 fid obj.name "pdf" _ _ _
  · rw [hstep]
    show (evict_lru_if_needed (clear s) _).current_memory_usage + _ = _
    rw [evict_clear]
    show (0 : Int) + _ = _
    rw [zero_add]
    rfl

theorem clear_behavior_witness :
    get_or_create (clear sP) 6 "q" objQ =
      ({ sP with
          cache := [], access_times := [],
          processing_queue := [("q", Future.running objQ)],
          current_memory_usage := 0 },
       CachedFile.placeholder "q" "q.pdf") ∧
    dictGet "q" (process_file_async extOk (clear sP) 7 "q" objQ).1.cache =
      some (process_file_async extOk (clear sP) 7 "q" objQ).2 ∧
    (process_file_async extOk (clear sP) 7 "q" objQ).1.current_memory_usage =
      ((process_file_async extOk (clear sP) 7 "q" objQ).2.memory_usage : Int) := by
  have h := clear_behavior extOk sP 6 7 "q" objQ rfl
  exact ⟨h.2.1, h.2.2.1, h.2.2.2⟩

/-! ## Claim C3 -/

/-- C3: in every reachable store state — that is, after every completed
mutation: insertion of a processed entry together with its evictions, a
dedup or error completion, `remove_file`, `clear`, or any `get_or_create` —
the running total `current_memory_usage` equals the exact sum of
`memory_usage` over the entries currently in the cache map, and it never
exceeds `max_memory_bytes` except when the cache holds exactly one entry
whose own cost exceeds the whole budget. -/
theorem usedBytes_invariant_reachable (ext : Externals) (s : CacheState)
    (h : Reachable ext s) :
    s.current_memory_usage = cacheSum s.cache ∧
    (s.current_memory_usage ≤ (s.max_memory_bytes : Int) ∨
      ∃ k cf, s.cache = [(k, cf)] ∧
        (s.max_memory_bytes : Int) < (cf.memory_usage : Int)) := by
  obtain ⟨⟨h1, _, _, _⟩, _, _, hbud⟩ := storeInv_reachable ext s h
  exact ⟨h1, hbud⟩

theorem usedBytes_invariant_reachable_witness :
    sP.current_memory_usage = cacheSum sP.cache ∧
    (sP.current_memory_usage ≤ (sP.max_memory_bytes : Int) ∨
      ∃ k cf, sP.cache = [(k, cf)] ∧
        (sP.max_memory_bytes : Int) < (cf.memory_usage : Int)) :=
  usedBytes_invariant_reachable extOk sP
    (Reachable.step_complete _ 1 "p"
      (Reachable.step_get _ 0 "p" objP (Reachable.init 1)))

end TTRG
